import Mathlib

/-!
Verification of the allan-tools deviation/variance estimation engine.

The Rust source computes over `f64`; we embed its arithmetic as exact
rational arithmetic (`ℚ`).  The floating-point square root (`powf(0.5)`)
has no exact rational counterpart, so every function that takes a square
root receives it as an explicit parameter `rsqrt : ℚ → ℚ`; theorems that
need the square root to be exact at a particular value take that as a
local hypothesis.  Machine-integer (`usize`) subtraction is modelled by a
checked subtraction (`none` signalling the debug-mode overflow panic), and
out-of-bounds indexing of a `Vec` by `Option`-returning access; `while`
loops are modelled with an explicit fuel argument, `none` signalling that
the loop did not finish (the source's loops either terminate within
`data.len() + 1` iterations or run forever).  A result of `none` therefore
means "the call aborts or never returns", while `some r` means the Rust
function returns `r`.
-/

namespace AllanTools

/-- Checked `usize` subtraction: Rust's `a - b` on unsigned integers,
`none` when the subtraction underflows (a panic in debug builds). -/
def checkedSub (a b : ℕ) : Option ℕ := if b ≤ a then some (a - b) else none

/-- Rust's `as usize` cast from `f64`: truncation toward zero, saturating
at 0 for negative inputs.  All uses in the source apply it to a
nonnegative `tau`, where it is the floor. -/
def ratToUsize (q : ℚ) : ℕ := (Int.floor q).toNat

/-- Concrete stand-in for the machine square root parameter, used only to
instantiate `rsqrt` in concrete evaluations: exact on the perfect squares
that occur there and, like the floating-point routine at non-squares,
inexact elsewhere (it returns 1, whose square differs from the
argument). -/
def ratSqrt (q : ℚ) : ℚ :=
  if q = 0 then 0
  else if q = 1 then 1
  else if q = 1 / 16 then 1 / 4
  else if q = 4 then 2
  else if q = 9 then 3
  else 1

/-- Errors of the tau-axis module (source `tau::Error`). -/
inductive TauError where
  | NegativeTauValue : TauError
  | NullTauValue : TauError
  | InvalidTauShape : TauError
deriving DecidableEq, Repr

/-- Errors of the deviation engine (source `Error`; the source spells the
first variant `TauAxisEror`). -/
inductive Error where
  | TauAxisEror : TauError → Error
  | NotEnoughSamplesError : Error
deriving DecidableEq, Repr

/-- Calculation kinds (source `Deviation` enum). -/
inductive Deviation where
  | Allan : Deviation
  | Modified : Deviation
  | Time : Deviation
deriving DecidableEq, Repr

/-- Loop body of `tau_sanity_checks`: the source iterates over indices,
comparing `taus[i]` with `0` and with `taus[i-1]`; we carry the previous
element instead of its index. -/
def tau_checks_from : Option ℚ → List ℚ → Except TauError Unit
  | _, [] => .ok ()
  | prev, t :: rest =>
    if t < 0 then .error .NegativeTauValue
    else if t = 0 then .error .NullTauValue
    else
      match prev with
      | some p => if t ≤ p then .error .InvalidTauShape else tau_checks_from (some t) rest
      | none => tau_checks_from (some t) rest

/-- Source `tau::tau_sanity_checks`. -/
def tau_sanity_checks (taus : List ℚ) : Except TauError Unit :=
  tau_checks_from none taus

/-- Inner loop of `cumsum`: `ret.push((ret[i-1] + data[i]) * normalization)`,
carrying the previously pushed output value. -/
def cumsum_loop (norm : ℚ) : ℚ → List ℚ → List ℚ
  | _, [] => []
  | prev, d :: rest => (prev + d) * norm :: cumsum_loop norm ((prev + d) * norm) rest

/-- Source `utils::cumsum`.  The first pushed element is `data[0]`
(unscaled); an empty input panics on the `data[0]` access, modelled by
`none`. -/
def cumsum (data : List ℚ) (normalization : Option ℚ) : Option (List ℚ) :=
  match data with
  | [] => none
  | d :: rest => some (d :: cumsum_loop (normalization.getD 1) d rest)

/-- Inner loop of `diff`: `ret.push((data[i] - data[i-1]) * normalization)`. -/
def diff_loop (norm : ℚ) : ℚ → List ℚ → List ℚ
  | _, [] => []
  | prev, d :: rest => (d - prev) * norm :: diff_loop norm d rest

/-- Source `utils::diff`.  On an empty input `Vec::with_capacity(len - 1)`
underflows, modelled by `none`. -/
def diff (data : List ℚ) (normalization : Option ℚ) : Option (List ℚ) :=
  match data with
  | [] => none
  | d :: rest => some (diff_loop (normalization.getD 1) d rest)

/-- Source `utils::fractionnal_integral` (called `fractional_integral` at
its use site in `lib.rs`): `cumsum(data, Some(1/sample_rate))`; the
mean-subtraction block is commented out in the source. -/
def fractionnal_integral (data : List ℚ) (sample_rate : ℚ) : Option (List ℚ) :=
  cumsum data (some (1 / sample_rate))

/-- Second-difference term of `calc_adev` and of the first loop of
`calc_mdev`: `data[i + 2*tau_u] - 2*data[i + tau_u] + data[i]`.  Indexing
is with default 0; every use is in bounds. -/
def secondDiff (data : List ℚ) (tau_u i : ℕ) : ℚ :=
  data.getD (i + 2 * tau_u) 0 - 2 * data.getD (i + tau_u) 0 + data.getD i 0

/-- Stride of `calc_adev`: `1` if overlapping, else `tau as usize`. -/
def strideOf (overlapping : Bool) (tau_u : ℕ) : ℕ :=
  if overlapping then 1 else tau_u

/-- Accumulation loop of `calc_adev`
(`while i < data.len() - 2*tau_u { sum += (..)^2; n += 1; i += stride }`),
with fuel; `none` means the loop did not finish within the fuel. -/
def adevLoop (data : List ℚ) (tau_u stride : ℕ) :
    ℕ → ℕ → ℕ → ℚ → Option (ℕ × ℚ)
  | 0, _, _, _ => none
  | fuel + 1, i, n, sum =>
    if i < data.length - 2 * tau_u then
      adevLoop data tau_u stride fuel (i + stride) (n + 1)
        (sum + (secondDiff data tau_u i) ^ 2)
    else some (n, sum)

/-- Source `calc_adev`.  `none` models a debug-mode panic (underflow of
`data.len() - 1` on empty data) or a loop that never terminates
(`stride = 0`).  The fuel `data.len() + 1` is sufficient for every
positive stride. -/
def calc_adev (rsqrt : ℚ → ℚ) (data : List ℚ) (tau sampling_rate : ℚ)
    (overlapping : Bool) : Option (Except Error (ℚ × ℚ)) :=
  let tau_u : ℕ := ratToUsize tau
  let stride : ℕ := strideOf overlapping tau_u
  match checkedSub data.length 1 with
  | none => none
  | some m =>
    if tau_u > m / 2 then some (.error .NotEnoughSamplesError)
    else
      match adevLoop data tau_u stride (data.length + 1) 0 0 0 with
      | none => none
      | some (n, sum) =>
        let dev := sum / 2
        let dev := rsqrt (dev / (n : ℚ)) / tau / sampling_rate
        some (.ok (dev, dev / rsqrt (n : ℚ)))

/-- Number of loop iterations of a strided loop running while
`start < bound`, i.e. the ceiling of `bound / stride`. -/
def ceilDiv (m s : ℕ) : ℕ := (m + s - 1) / s

/-- Number of terms accumulated by the Allan loop: indices
`0, stride, 2*stride, …` below `N - 2*tau_u`. -/
def adevCount (N tau_u stride : ℕ) : ℕ := ceilDiv (N - 2 * tau_u) stride

/-- Sum accumulated by the Allan loop: squared second differences at
indices `0, stride, 2*stride, …` below `N - 2*tau_u`. -/
def adevSum (data : List ℚ) (tau_u stride : ℕ) : ℚ :=
  ∑ j ∈ Finset.range (adevCount data.length tau_u stride),
    (secondDiff data tau_u (j * stride)) ^ 2

theorem ceilDiv_zero_left (s : ℕ) (hs : 1 ≤ s) : ceilDiv 0 s = 0 := by
  unfold ceilDiv
  exact Nat.div_eq_of_lt (by omega)

theorem ceilDiv_step (m s : ℕ) (hs : 1 ≤ s) (hm : 1 ≤ m) :
    ceilDiv m s = ceilDiv (m - s) s + 1 := by
  unfold ceilDiv
  rcases le_or_lt s m with h | h
  · obtain ⟨a, rfl⟩ : ∃ a, m = a + s := ⟨m - s, by omega⟩
    have h1 : a + s + s - 1 = (a + s - 1) + s := by omega
    have h2 : a + s - s = a := by omega
    rw [h1, Nat.add_div_right _ hs, h2]
  · have h2 : m - s = 0 := by omega
    have h3 : (m + s - 1) / s = 1 := by
      rw [show m + s - 1 = (m - 1) + s by omega, Nat.add_div_right _ hs,
        Nat.div_eq_of_lt (by omega)]
    have h4 : (0 + s - 1) / s = 0 := Nat.div_eq_of_lt (by omega)
    rw [h2, h3, h4]

theorem ceilDiv_pos (m s : ℕ) (hs : 1 ≤ s) (hm : 1 ≤ m) : 1 ≤ ceilDiv m s := by
  rw [ceilDiv_step m s hs hm]; omega

/-- Characterization of the Allan accumulation loop for positive stride:
starting at index `i` with enough fuel, it terminates and accumulates the
squared second differences at `i, i + stride, …` below `N - 2*tau_u`. -/
theorem adevLoop_eq (data : List ℚ) (tau_u s : ℕ) (hs : 1 ≤ s) :
    ∀ fuel i n sum, data.length - 2 * tau_u - i < fuel →
      adevLoop data tau_u s fuel i n sum =
        some (n + ceilDiv (data.length - 2 * tau_u - i) s,
          sum + ∑ j ∈ Finset.range (ceilDiv (data.length - 2 * tau_u - i) s),
            (secondDiff data tau_u (i + j * s)) ^ 2) := by
  intro fuel
  induction fuel with
  | zero => intro i n sum h; omega
  | succ fuel ih =>
    intro i n sum h
    by_cases hi : i < data.length - 2 * tau_u
    · rw [adevLoop, if_pos hi, ih (i + s) (n + 1) (sum + (secondDiff data tau_u i) ^ 2) (by omega)]
      have hk : ceilDiv (data.length - 2 * tau_u - i) s
          = ceilDiv (data.length - 2 * tau_u - (i + s)) s + 1 := by
        have : data.length - 2 * tau_u - i - s = data.length - 2 * tau_u - (i + s) := by omega
        rw [ceilDiv_step _ s hs (by omega), this]
      rw [hk]
      refine congrArg some (Prod.ext (by omega) ?_)
      rw [Finset.sum_range_succ']
      have hterm : ∀ j, secondDiff data tau_u (i + (j + 1) * s) = secondDiff data tau_u (i + s + j * s) := by
        intro j; congr 1; ring
      have hsum : (∑ j ∈ Finset.range (ceilDiv (data.length - 2 * tau_u - (i + s)) s),
            (secondDiff data tau_u (i + (j + 1) * s)) ^ 2)
          = ∑ j ∈ Finset.range (ceilDiv (data.length - 2 * tau_u - (i + s)) s),
            (secondDiff data tau_u (i + s + j * s)) ^ 2 := by
        exact Finset.sum_congr rfl fun j _ => by rw [hterm j]
      rw [hsum]
      have h0 : i + 0 * s = i := by ring
      rw [h0]
      ring
    · rw [adevLoop, if_neg hi]
      have h0 : data.length - 2 * tau_u - i = 0 := by omega
      rw [h0, ceilDiv_zero_left s hs]
      simp

/-- With zero stride the Allan loop spins at a fixed index: it never
finishes, whatever fuel it is given. -/
theorem adevLoop_diverges (data : List ℚ) (tau_u : ℕ) :
    ∀ fuel i n sum, i < data.length - 2 * tau_u →
      adevLoop data tau_u 0 fuel i n sum = none := by
  intro fuel
  induction fuel with
  | zero => intro i n sum _; rfl
  | succ fuel ih =>
    intro i n sum hi
    rw [adevLoop, if_pos hi]
    exact ih (i + 0) (n + 1) _ (by omega)

/-- When the feasibility check fails (`tau_u > (N-1)/2` on nonempty data)
`calc_adev` reports `NotEnoughSamplesError`. -/
theorem calc_adev_notEnough (rsqrt : ℚ → ℚ) (data : List ℚ) (tau rate : ℚ)
    (ov : Bool) (hN : 1 ≤ data.length)
    (h : (data.length - 1) / 2 < ratToUsize tau) :
    calc_adev rsqrt data tau rate ov = some (.error .NotEnoughSamplesError) := by
  have hcs : checkedSub data.length 1 = some (data.length - 1) := by
    unfold checkedSub; rw [if_pos hN]
  simp only [calc_adev, hcs, gt_iff_lt, if_pos h]

/-- On a feasible nonempty input with positive integer tau, `calc_adev`
returns the deviation `rsqrt(S / 2 / k) / tau / rate` and the error bar
`deviation / rsqrt(k)`, where `S` and `k` are the strided sum of squared
second differences and the number of accumulated terms. -/
theorem calc_adev_eq (rsqrt : ℚ → ℚ) (data : List ℚ) (tau rate : ℚ) (ov : Bool)
    (h1 : 1 ≤ ratToUsize tau) (h2 : ratToUsize tau ≤ (data.length - 1) / 2) :
    calc_adev rsqrt data tau rate ov =
      some (.ok
        (rsqrt (adevSum data (ratToUsize tau) (strideOf ov (ratToUsize tau)) / 2 /
            (adevCount data.length (ratToUsize tau) (strideOf ov (ratToUsize tau)) : ℚ)) / tau / rate,
         rsqrt (adevSum data (ratToUsize tau) (strideOf ov (ratToUsize tau)) / 2 /
            (adevCount data.length (ratToUsize tau) (strideOf ov (ratToUsize tau)) : ℚ)) / tau / rate /
           rsqrt ((adevCount data.length (ratToUsize tau) (strideOf ov (ratToUsize tau)) : ℚ)))) := by
  have hN : 1 ≤ data.length := by omega
  have hs : 1 ≤ strideOf ov (ratToUsize tau) := by
    unfold strideOf; cases ov
    · simpa using h1
    · simp
  have hcs : checkedSub data.length 1 = some (data.length - 1) := by
    unfold checkedSub; rw [if_pos hN]
  have hloop := adevLoop_eq data (ratToUsize tau) (strideOf ov (ratToUsize tau)) hs
      (data.length + 1) 0 0 0 (by omega)
  simp only [Nat.sub_zero, Nat.zero_add, zero_add] at hloop
  simp only [calc_adev, hcs, gt_iff_lt, if_neg (by omega : ¬ (data.length - 1) / 2 < ratToUsize tau),
    hloop, adevSum, adevCount, ceilDiv]

/-- Third-difference term of the second loop of `calc_mdev`:
`data[i + 3*tau_u] - 3*data[i + 2*tau_u] + 3*data[i + tau_u] - data[i]`. -/
def thirdDiff (data : List ℚ) (tau_u i : ℕ) : ℚ :=
  data.getD (i + 3 * tau_u) 0 - 3 * data.getD (i + 2 * tau_u) 0
    + 3 * data.getD (i + tau_u) 0 - data.getD i 0

/-- Seed loop of `calc_mdev`
(`while (i < data.len() - 2*tau_u) && (i < tau_u) { v += ..; i += 1 }`). -/
def mdevSeedLoop (data : List ℚ) (tau_u : ℕ) : ℕ → ℕ → ℚ → Option ℚ
  | 0, _, _ => none
  | fuel + 1, i, v =>
    if i < data.length - 2 * tau_u ∧ i < tau_u then
      mdevSeedLoop data tau_u fuel (i + 1) (v + secondDiff data tau_u i)
    else some v

/-- Running loop of `calc_mdev`
(`while i < data.len() - 3*tau_u { v += ..; sum += v^2; n += 1; i += 1 }`).
The bound `data.length - 3 * tau_u` here is only ever evaluated after
`calc_mdev` has checked (with `checkedSub`) that the usize subtraction in
the source's loop condition does not underflow, so the truncated ℕ
subtraction agrees with the source on every reachable call. -/
def mdevRunLoop (data : List ℚ) (tau_u : ℕ) : ℕ → ℕ → ℕ → ℚ → ℚ → Option (ℕ × ℚ)
  | 0, _, _, _, _ => none
  | fuel + 1, i, n, v, sum =>
    if i < data.length - 3 * tau_u then
      mdevRunLoop data tau_u fuel (i + 1) (n + 1) (v + thirdDiff data tau_u i)
        (sum + (v + thirdDiff data tau_u i) ^ 2)
    else some (n, sum)

/-- Source `calc_mdev`.  After the seed loop the source does
`sum += v^2; n += 1`, so the running loop starts with `n = 1` and
`sum = v^2`.  The running loop's condition evaluates
`data.len() - 3*tau_u`, a usize subtraction that the feasibility check
(`tau_u <= (N-1)/2`) does NOT protect: for `N < 3*tau_u` it underflows —
a debug-build panic, while in release the wrapped bound makes the first
iteration index `data[3*tau_u]` out of bounds, also a panic.  The bound
depends only on the (loop-invariant) length and `tau_u`, so we model it
by one checked subtraction before the loop, `none` on underflow.  Note
the final normalization: `sum / 2 / tau / tau` before the square root,
then another `/ tau / sampling_rate` after it. -/
def calc_mdev (rsqrt : ℚ → ℚ) (data : List ℚ) (tau sampling_rate : ℚ) :
    Option (Except Error (ℚ × ℚ)) :=
  let tau_u : ℕ := ratToUsize tau
  match checkedSub data.length 1 with
  | none => none
  | some m =>
    if tau_u > m / 2 then some (.error .NotEnoughSamplesError)
    else
      match mdevSeedLoop data tau_u (data.length + 1) 0 0 with
      | none => none
      | some v =>
        match checkedSub data.length (3 * tau_u) with
        | none => none
        | some _ =>
          match mdevRunLoop data tau_u (data.length + 1) 0 1 v (v ^ 2) with
          | none => none
          | some (n, sum) =>
            let dev := sum / 2 / tau / tau
            let dev := rsqrt (dev / (n : ℚ)) / tau / sampling_rate
            some (.ok (dev, dev / rsqrt (n : ℚ)))

/-- Source `calc_tdev`: scales the Modified Allan deviation by
`tau / sqrt(3)` and passes its error bar through unchanged. -/
def calc_tdev (rsqrt : ℚ → ℚ) (data : List ℚ) (tau sampling_rate : ℚ) :
    Option (Except Error (ℚ × ℚ)) :=
  match calc_mdev rsqrt data tau sampling_rate with
  | none => none
  | some (.error e) => some (.error e)
  | some (.ok (mdev, mderr)) => some (.ok (mdev * tau / rsqrt 3, mderr))

/-- Value of the seed stage of `calc_mdev`: the sum of the first
`min (N - 2*tau_u) tau_u` second differences at offset 0. -/
def mdevSeed (data : List ℚ) (tau_u : ℕ) : ℚ :=
  ∑ i ∈ Finset.range (min (data.length - 2 * tau_u) tau_u), secondDiff data tau_u i

/-- Number of terms accumulated by `calc_mdev`: one for the seed stage,
plus one per running-stage index `0 ≤ i < N - 3*tau_u`. -/
def mdevCount (N tau_u : ℕ) : ℕ := 1 + (N - 3 * tau_u)

/-- Sum accumulated by `calc_mdev`: the squared seed, plus the square of
the running value after each third-difference update. -/
def mdevSum (data : List ℚ) (tau_u : ℕ) : ℚ :=
  (mdevSeed data tau_u) ^ 2 +
    ∑ j ∈ Finset.range (data.length - 3 * tau_u),
      (mdevSeed data tau_u + ∑ k ∈ Finset.range (j + 1), thirdDiff data tau_u k) ^ 2

/-- Characterization of the seed loop: starting at `i` with enough fuel it
returns `v` plus the second differences at `i, i+1, …` below
`min (N - 2*tau_u) tau_u`. -/
theorem mdevSeedLoop_eq (data : List ℚ) (tau_u : ℕ) :
    ∀ fuel i v, min (data.length - 2 * tau_u) tau_u - i < fuel →
      mdevSeedLoop data tau_u fuel i v =
        some (v + ∑ j ∈ Finset.range (min (data.length - 2 * tau_u) tau_u - i),
          secondDiff data tau_u (i + j)) := by
  intro fuel
  induction fuel with
  | zero => intro i v h; omega
  | succ fuel ih =>
    intro i v h
    by_cases hi : i < data.length - 2 * tau_u ∧ i < tau_u
    · have hi2 : i < min (data.length - 2 * tau_u) tau_u := by omega
      rw [mdevSeedLoop, if_pos hi, ih (i + 1) (v + secondDiff data tau_u i) (by omega)]
      have hk : min (data.length - 2 * tau_u) tau_u - i
          = (min (data.length - 2 * tau_u) tau_u - (i + 1)) + 1 := by omega
      rw [hk, Finset.sum_range_succ']
      refine congrArg some ?_
      have hterm : (∑ j ∈ Finset.range (min (data.length - 2 * tau_u) tau_u - (i + 1)),
            secondDiff data tau_u (i + (j + 1)))
          = ∑ j ∈ Finset.range (min (data.length - 2 * tau_u) tau_u - (i + 1)),
            secondDiff data tau_u (i + 1 + j) := by
        exact Finset.sum_congr rfl fun j _ => by rw [show i + (j + 1) = i + 1 + j by ring]
      rw [hterm, add_zero]
      ring
    · rw [mdevSeedLoop, if_neg hi]
      have h0 : min (data.length - 2 * tau_u) tau_u - i = 0 := by omega
      rw [h0]
      simp

/-- Characterization of the running loop: starting at `i` with running
value `v` and enough fuel, it adds `N - 3*tau_u - i` terms, each the
square of `v` plus a prefix sum of third differences. -/
theorem mdevRunLoop_eq (data : List ℚ) (tau_u : ℕ) :
    ∀ fuel i n v sum, data.length - 3 * tau_u - i < fuel →
      mdevRunLoop data tau_u fuel i n v sum =
        some (n + (data.length - 3 * tau_u - i),
          sum + ∑ j ∈ Finset.range (data.length - 3 * tau_u - i),
            (v + ∑ k ∈ Finset.range (j + 1), thirdDiff data tau_u (i + k)) ^ 2) := by
  intro fuel
  induction fuel with
  | zero => intro i n v sum h; omega
  | succ fuel ih =>
    intro i n v sum h
    by_cases hi : i < data.length - 3 * tau_u
    · rw [mdevRunLoop, if_pos hi,
        ih (i + 1) (n + 1) (v + thirdDiff data tau_u i) (sum + (v + thirdDiff data tau_u i) ^ 2) (by omega)]
      have hk : data.length - 3 * tau_u - i = (data.length - 3 * tau_u - (i + 1)) + 1 := by omega
      rw [hk]
      refine congrArg some (Prod.ext (by omega) ?_)
      rw [Finset.sum_range_succ']
      have hterm : ∀ j, (v + ∑ k ∈ Finset.range (j + 1 + 1), thirdDiff data tau_u (i + k))
          = (v + thirdDiff data tau_u i + ∑ k ∈ Finset.range (j + 1), thirdDiff data tau_u (i + 1 + k)) := by
        intro j
        rw [Finset.sum_range_succ' (fun k => thirdDiff data tau_u (i + k)) (j + 1)]
        have : (∑ k ∈ Finset.range (j + 1), thirdDiff data tau_u (i + (k + 1)))
            = ∑ k ∈ Finset.range (j + 1), thirdDiff data tau_u (i + 1 + k) := by
          exact Finset.sum_congr rfl fun k _ => by rw [show i + (k + 1) = i + 1 + k by ring]
        rw [this, add_zero]
        ring
      have hsum : (∑ j ∈ Finset.range (data.length - 3 * tau_u - (i + 1)),
            (v + ∑ k ∈ Finset.range (j + 1 + 1), thirdDiff data tau_u (i + k)) ^ 2)
          = ∑ j ∈ Finset.range (data.length - 3 * tau_u - (i + 1)),
            (v + thirdDiff data tau_u i + ∑ k ∈ Finset.range (j + 1), thirdDiff data tau_u (i + 1 + k)) ^ 2 := by
        exact Finset.sum_congr rfl fun j _ => by rw [hterm j]
      rw [hsum]
      have h0 : (v + ∑ k ∈ Finset.range (0 + 1), thirdDiff data tau_u (i + k)) ^ 2
          = (v + thirdDiff data tau_u i) ^ 2 := by
        rw [Finset.sum_range_one, add_zero]
      rw [h0]
      ring
    · rw [mdevRunLoop, if_neg hi]
      have h0 : data.length - 3 * tau_u - i = 0 := by omega
      rw [h0]
      simp

/-- When the feasibility check fails, `calc_mdev` reports
`NotEnoughSamplesError`. -/
theorem calc_mdev_notEnough (rsqrt : ℚ → ℚ) (data : List ℚ) (tau rate : ℚ)
    (hN : 1 ≤ data.length) (h : (data.length - 1) / 2 < ratToUsize tau) :
    calc_mdev rsqrt data tau rate = some (.error .NotEnoughSamplesError) := by
  have hcs : checkedSub data.length 1 = some (data.length - 1) := by
    unfold checkedSub; rw [if_pos hN]
  simp only [calc_mdev, hcs, gt_iff_lt, if_pos h]

/-- On a feasible nonempty input whose length also covers the running
loop's bound (`3*tau_u ≤ N`), `calc_mdev` returns the deviation
`rsqrt(S / 2 / tau / tau / k) / tau / rate` and error bar
`deviation / rsqrt(k)`, with `S = mdevSum` and `k = mdevCount`. -/
theorem calc_mdev_eq (rsqrt : ℚ → ℚ) (data : List ℚ) (tau rate : ℚ)
    (hN : 1 ≤ data.length) (h2 : ratToUsize tau ≤ (data.length - 1) / 2)
    (h3 : 3 * ratToUsize tau ≤ data.length) :
    calc_mdev rsqrt data tau rate =
      some (.ok
        (rsqrt (mdevSum data (ratToUsize tau) / 2 / tau / tau /
            (mdevCount data.length (ratToUsize tau) : ℚ)) / tau / rate,
         rsqrt (mdevSum data (ratToUsize tau) / 2 / tau / tau /
            (mdevCount data.length (ratToUsize tau) : ℚ)) / tau / rate /
           rsqrt ((mdevCount data.length (ratToUsize tau) : ℚ)))) := by
  have hcs : checkedSub data.length 1 = some (data.length - 1) := by
    unfold checkedSub; rw [if_pos hN]
  have hcs3 : checkedSub data.length (3 * ratToUsize tau)
      = some (data.length - 3 * ratToUsize tau) := by
    unfold checkedSub; rw [if_pos h3]
  have hseed := mdevSeedLoop_eq data (ratToUsize tau) (data.length + 1) 0 0 (by omega)
  simp only [Nat.sub_zero, Nat.zero_add, zero_add] at hseed
  have hrun := mdevRunLoop_eq data (ratToUsize tau) (data.length + 1) 0 1
      (mdevSeed data (ratToUsize tau)) ((mdevSeed data (ratToUsize tau)) ^ 2) (by omega)
  simp only [Nat.sub_zero, Nat.zero_add, zero_add] at hrun
  have hseed2 : mdevSeedLoop data (ratToUsize tau) (data.length + 1) 0 0
      = some (mdevSeed data (ratToUsize tau)) := by
    rw [hseed, mdevSeed]
  simp only [calc_mdev, hcs, hcs3, gt_iff_lt,
    if_neg (by omega : ¬ (data.length - 1) / 2 < ratToUsize tau),
    hseed2, hrun, mdevSum, mdevCount]

/-- On a feasible nonempty input that is too short for the running
loop's bound (`N < 3*tau_u`, reachable whenever `2*tau_u + 1 ≤ N`), the
usize subtraction `data.len() - 3*tau_u` underflows and `calc_mdev`
aborts instead of returning. -/
theorem calc_mdev_panics (rsqrt : ℚ → ℚ) (data : List ℚ) (tau rate : ℚ)
    (hN : 1 ≤ data.length) (h2 : ratToUsize tau ≤ (data.length - 1) / 2)
    (h3 : data.length < 3 * ratToUsize tau) :
    calc_mdev rsqrt data tau rate = none := by
  have hcs : checkedSub data.length 1 = some (data.length - 1) := by
    unfold checkedSub; rw [if_pos hN]
  have hcs3 : checkedSub data.length (3 * ratToUsize tau) = none := by
    unfold checkedSub; rw [if_neg (by omega)]
  have hseed := mdevSeedLoop_eq data (ratToUsize tau) (data.length + 1) 0 0 (by omega)
  simp only [Nat.sub_zero, Nat.zero_add, zero_add] at hseed
  have hseed2 : mdevSeedLoop data (ratToUsize tau) (data.length + 1) 0 0
      = some (mdevSeed data (ratToUsize tau)) := by
    rw [hseed, mdevSeed]
  simp only [calc_mdev, hcs, hcs3, gt_iff_lt,
    if_neg (by omega : ¬ (data.length - 1) / 2 < ratToUsize tau), hseed2]

/-- Failure behaviour of `calc_tdev` follows `calc_mdev`. -/
theorem calc_tdev_notEnough (rsqrt : ℚ → ℚ) (data : List ℚ) (tau rate : ℚ)
    (hN : 1 ≤ data.length) (h : (data.length - 1) / 2 < ratToUsize tau) :
    calc_tdev rsqrt data tau rate = some (.error .NotEnoughSamplesError) := by
  simp only [calc_tdev, calc_mdev_notEnough rsqrt data tau rate hN h]

/-- Success behaviour of `calc_tdev` follows `calc_mdev`, scaling the
deviation by `tau / rsqrt 3`. -/
theorem calc_tdev_eq (rsqrt : ℚ → ℚ) (data : List ℚ) (tau rate : ℚ)
    (hN : 1 ≤ data.length) (h2 : ratToUsize tau ≤ (data.length - 1) / 2)
    (h3 : 3 * ratToUsize tau ≤ data.length) :
    calc_tdev rsqrt data tau rate =
      some (.ok
        (rsqrt (mdevSum data (ratToUsize tau) / 2 / tau / tau /
            (mdevCount data.length (ratToUsize tau) : ℚ)) / tau / rate * tau / rsqrt 3,
         rsqrt (mdevSum data (ratToUsize tau) / 2 / tau / tau /
            (mdevCount data.length (ratToUsize tau) : ℚ)) / tau / rate /
           rsqrt ((mdevCount data.length (ratToUsize tau) : ℚ)))) := by
  simp only [calc_tdev, calc_mdev_eq rsqrt data tau rate hN h2 h3]

/-- Abort behaviour of `calc_tdev` follows `calc_mdev`. -/
theorem calc_tdev_panics (rsqrt : ℚ → ℚ) (data : List ℚ) (tau rate : ℚ)
    (hN : 1 ≤ data.length) (h2 : ratToUsize tau ≤ (data.length - 1) / 2)
    (h3 : data.length < 3 * ratToUsize tau) :
    calc_tdev rsqrt data tau rate = none := by
  simp only [calc_tdev, calc_mdev_panics rsqrt data tau rate hN h2 h3]

/-- Estimator dispatch of the `match kind` inside `deviation`'s loop:
Allan takes the `overlapping` flag; Modified and Time ignore it. -/
def runCalc (rsqrt : ℚ → ℚ) (kind : Deviation) (data : List ℚ)
    (tau sampling_rate : ℚ) (overlapping : Bool) : Option (Except Error (ℚ × ℚ)) :=
  match kind with
  | .Allan => calc_adev rsqrt data tau sampling_rate overlapping
  | .Modified => calc_mdev rsqrt data tau sampling_rate
  | .Time => calc_tdev rsqrt data tau sampling_rate

/-- Per-tau loop of `deviation`: on estimator success push `(dev, err)`;
on estimator error break (drop all later taus); `none` (panic or
non-termination) aborts the whole call. -/
def devLoop (rsqrt : ℚ → ℚ) (kind : Deviation) (data : List ℚ)
    (sampling_rate : ℚ) (overlapping : Bool) : List ℚ → Option (List ℚ × List ℚ)
  | [] => some ([], [])
  | tau :: rest =>
    match runCalc rsqrt kind data tau sampling_rate overlapping with
    | none => none
    | some (.error _) => some ([], [])
    | some (.ok (d, e)) =>
      match devLoop rsqrt kind data sampling_rate overlapping rest with
      | none => none
      | some (devs, errs) => some (d :: devs, e :: errs)

/-- Preprocessing step of `deviation`: the source calls
`utils::fractional_integral(data, 1.0)` — with a hardcoded sampling rate
of 1 — when `is_fractional`, else clones the data. -/
def preprocess (data : List ℚ) (is_fractional : Bool) : Option (List ℚ) :=
  if is_fractional then fractionnal_integral data 1 else some data

/-- Source `deviation`: validate the tau axis, preprocess, then run the
estimator over the taus in order with break-on-error. -/
def deviation (rsqrt : ℚ → ℚ) (data taus : List ℚ) (kind : Deviation)
    (sampling_rate : ℚ) (is_fractional overlapping : Bool) :
    Option (Except Error (List ℚ × List ℚ)) :=
  match tau_sanity_checks taus with
  | .error e => some (.error (.TauAxisEror e))
  | .ok () =>
    match preprocess data is_fractional with
    | none => none
    | some pdata =>
      match devLoop rsqrt kind pdata sampling_rate overlapping taus with
      | none => none
      | some (devs, errs) => some (.ok (devs, errs))

/-- Source `variance`: runs `deviation` and squares each returned value
in place (`var[i] *= var[i]`), keeping the error bars unchanged. -/
def variance (rsqrt : ℚ → ℚ) (data taus : List ℚ) (kind : Deviation)
    (sampling_rate : ℚ) (is_fractional overlapping : Bool) :
    Option (Except Error (List ℚ × List ℚ)) :=
  match deviation rsqrt data taus kind sampling_rate is_fractional overlapping with
  | none => none
  | some (.error e) => some (.error e)
  | some (.ok (var, err)) => some (.ok (var.map fun v => v * v, err))

/-- Combination loop of `three_cornered_hat`: for `i` in
`0..var_ab.len()` push the three square roots; indexing `var_bc[i]` or
`var_ca[i]` out of bounds panics (`none`). -/
def tch_combine (rsqrt : ℚ → ℚ) :
    List ℚ → List ℚ → List ℚ → Option (List ℚ × List ℚ × List ℚ)
  | [], _, _ => some ([], [], [])
  | ab :: abs', bc :: bcs, ca :: cas =>
    match tch_combine rsqrt abs' bcs cas with
    | none => none
    | some (a, b, c) =>
      some (rsqrt (0.5 * (ab - bc + ca)) :: a,
            rsqrt (0.5 * (bc - ca + ab)) :: b,
            rsqrt (0.5 * (ca - ab + bc)) :: c)
  | _ :: _, _, _ => none

/-- Source `three_cornered_hat`: three pairwise `variance` runs, the
per-index algebraic combination, and each clock paired with the error bar
of its own pairwise measurement. -/
def three_cornered_hat (rsqrt : ℚ → ℚ) (data_ab data_bc data_ca taus : List ℚ)
    (sample_rate : ℚ) (is_fractional overlapping : Bool) (kind : Deviation) :
    Option (Except Error ((List ℚ × List ℚ) × (List ℚ × List ℚ) × (List ℚ × List ℚ))) :=
  match variance rsqrt data_ab taus kind sample_rate is_fractional overlapping with
  | none => none
  | some (.error e) => some (.error e)
  | some (.ok (var_ab, err_ab)) =>
    match variance rsqrt data_bc taus kind sample_rate is_fractional overlapping with
    | none => none
    | some (.error e) => some (.error e)
    | some (.ok (var_bc, err_bc)) =>
      match variance rsqrt data_ca taus kind sample_rate is_fractional overlapping with
      | none => none
      | some (.error e) => some (.error e)
      | some (.ok (var_ca, err_ca)) =>
        match tch_combine rsqrt var_ab var_bc var_ca with
        | none => none
        | some (a, b, c) =>
          some (.ok ((a, err_ab), (b, err_bc), (c, err_ca)))

theorem cumsum_loop_length (norm : ℚ) :
    ∀ l prev, (cumsum_loop norm prev l).length = l.length := by
  intro l
  induction l with
  | nil => intro prev; rfl
  | cons d rest ih => intro prev; simp [cumsum_loop, ih]

/-- On nonempty data the preprocessor always yields a list of the same
length (identity, or the running integral). -/
theorem preprocess_length (data : List ℚ) (f : Bool) (hN : 1 ≤ data.length) :
    ∃ pdata, preprocess data f = some pdata ∧ pdata.length = data.length := by
  cases f
  · exact ⟨data, rfl, rfl⟩
  · cases data with
    | nil => simp at hN
    | cons d rest =>
      exact ⟨_, rfl, by simp [cumsum_loop_length]⟩

/-- Every estimator reports `NotEnoughSamplesError` on an infeasible tau
(nonempty data). -/
theorem runCalc_notEnough (rsqrt : ℚ → ℚ) (kind : Deviation) (data : List ℚ)
    (tau rate : ℚ) (ov : Bool) (hN : 1 ≤ data.length)
    (h : (data.length - 1) / 2 < ratToUsize tau) :
    runCalc rsqrt kind data tau rate ov = some (.error .NotEnoughSamplesError) := by
  cases kind
  · exact calc_adev_notEnough rsqrt data tau rate ov hN h
  · exact calc_mdev_notEnough rsqrt data tau rate hN h
  · exact calc_tdev_notEnough rsqrt data tau rate hN h

/-- Every estimator succeeds on a feasible tau with positive integer part
(nonempty data), provided — for the Modified-based kinds — that the data
also covers the running loop's bound `3*tau_u ≤ N` (otherwise those
estimators panic, see `calc_mdev_panics`). -/
theorem runCalc_ok (rsqrt : ℚ → ℚ) (kind : Deviation) (data : List ℚ)
    (tau rate : ℚ) (ov : Bool) (hN : 1 ≤ data.length)
    (h1 : 1 ≤ ratToUsize tau) (h2 : ratToUsize tau ≤ (data.length - 1) / 2)
    (hk : kind = .Allan ∨ 3 * ratToUsize tau ≤ data.length) :
    ∃ d e, runCalc rsqrt kind data tau rate ov = some (.ok (d, e)) := by
  cases kind
  · exact ⟨_, _, calc_adev_eq rsqrt data tau rate ov h1 h2⟩
  · rcases hk with h | h3
    · exact absurd h (by simp)
    · exact ⟨_, _, calc_mdev_eq rsqrt data tau rate hN h2 h3⟩
  · rcases hk with h | h3
    · exact absurd h (by simp)
    · exact ⟨_, _, calc_tdev_eq rsqrt data tau rate hN h2 h3⟩

/-- Behaviour of the per-tau loop when every tau has positive integer
part and every feasible tau is safe for the chosen kind (Allan, or short
enough that the Modified running-loop bound does not underflow): it
returns the estimates for exactly the feasible prefix of the tau axis,
stopping at the first infeasible tau. -/
theorem devLoop_eq (rsqrt : ℚ → ℚ) (kind : Deviation) (pdata : List ℚ)
    (rate : ℚ) (ov : Bool) (hN : 1 ≤ pdata.length) :
    ∀ taus, (∀ t ∈ taus, 1 ≤ ratToUsize t) →
      (∀ t ∈ taus, ratToUsize t ≤ (pdata.length - 1) / 2 →
        kind = .Allan ∨ 3 * ratToUsize t ≤ pdata.length) →
      ∃ devs errs,
        devLoop rsqrt kind pdata rate ov taus = some (devs, errs) ∧
        devs.length = errs.length ∧
        devs.length = (taus.takeWhile fun t =>
          decide (ratToUsize t ≤ (pdata.length - 1) / 2)).length ∧
        ∀ i, i < devs.length →
          runCalc rsqrt kind pdata (taus.getD i 0) rate ov
            = some (.ok (devs.getD i 0, errs.getD i 0)) := by
  intro taus
  induction taus with
  | nil =>
    intro _ _
    exact ⟨[], [], rfl, rfl, rfl, fun i hi => absurd hi (by simp)⟩
  | cons t rest ih =>
    intro hall hsafe
    have ht : 1 ≤ ratToUsize t := hall t (List.mem_cons_self _ _)
    by_cases hf : ratToUsize t ≤ (pdata.length - 1) / 2
    · obtain ⟨d, e, hde⟩ := runCalc_ok rsqrt kind pdata t rate ov hN ht hf
        (hsafe t (List.mem_cons_self _ _) hf)
      obtain ⟨devs, errs, hdl, hlen, htw, hidx⟩ :=
        ih (fun u hu => hall u (List.mem_cons_of_mem _ hu))
          (fun u hu => hsafe u (List.mem_cons_of_mem _ hu))
      refine ⟨d :: devs, e :: errs, ?_, by simpa using hlen, ?_, ?_⟩
      · simp only [devLoop, hde, hdl]
      · simp only [List.takeWhile, decide_eq_true hf, List.length_cons]
        rw [htw]
      · intro i hi
        cases i with
        | zero => simpa using hde
        | succ j =>
          simp only [List.getD_cons_succ]
          exact hidx j (by simpa using hi)
    · have hne := runCalc_notEnough rsqrt kind pdata t rate ov hN (by omega)
      refine ⟨[], [], ?_, rfl, ?_, fun i hi => absurd hi (by simp)⟩
      · simp only [devLoop, hne]
      · simp only [List.takeWhile, decide_eq_false hf, List.length_nil]

/-- Success of the validation scan, with an invariant carrying the
previously seen element. -/
theorem tau_checks_from_ok (taus : List ℚ) :
    ∀ prev, tau_checks_from prev taus = .ok () ↔
      ((∀ t ∈ taus, 0 < t) ∧ taus.Chain' (· < ·) ∧
        ∀ p, prev = some p → ∀ h ∈ taus.head?, p < h) := by
  induction taus with
  | nil =>
    intro prev
    simp [tau_checks_from]
  | cons t rest ih =>
    intro prev
    by_cases h1 : t < 0
    · refine iff_of_false (by simp [tau_checks_from, if_pos h1]) ?_
      rintro ⟨hpos, -, -⟩
      exact absurd (hpos t (by simp)) (by linarith)
    · by_cases h2 : t = 0
      · refine iff_of_false (by simp [tau_checks_from, if_neg h1, if_pos h2]) ?_
        rintro ⟨hpos, -, -⟩
        have := hpos t (by simp)
        rw [h2] at this
        exact lt_irrefl 0 this
      · have h3 : 0 < t := lt_of_le_of_ne (not_lt.mp h1) (Ne.symm h2)
        cases prev with
        | none =>
          rw [show tau_checks_from none (t :: rest) = tau_checks_from (some t) rest by
            simp [tau_checks_from, if_neg h1, if_neg h2], ih (some t)]
          constructor
          · rintro ⟨hpos, hchain, hhead⟩
            refine ⟨?_, ?_, ?_⟩
            · intro u hu
              rcases List.mem_cons.mp hu with rfl | hu
              · exact h3
              · exact hpos u hu
            · rw [List.chain'_cons']
              exact ⟨fun h hh => hhead t rfl h hh, hchain⟩
            · intro p hp; cases hp
          · rintro ⟨hpos, hchain, -⟩
            rw [List.chain'_cons'] at hchain
            refine ⟨fun u hu => hpos u (List.mem_cons_of_mem _ hu), hchain.2, ?_⟩
            intro p hp h hh
            cases hp
            exact hchain.1 h hh
        | some p =>
          by_cases h4 : t ≤ p
          · refine iff_of_false
              (by simp [tau_checks_from, if_neg h1, if_neg h2, if_pos h4]) ?_
            rintro ⟨-, -, hhead⟩
            exact absurd (hhead p rfl t rfl) (by linarith)
          · rw [show tau_checks_from (some p) (t :: rest) = tau_checks_from (some t) rest by
              simp [tau_checks_from, if_neg h1, if_neg h2, if_neg h4], ih (some t)]
            have h5 : p < t := not_le.mp h4
            constructor
            · rintro ⟨hpos, hchain, hhead⟩
              refine ⟨?_, ?_, ?_⟩
              · intro u hu
                rcases List.mem_cons.mp hu with rfl | hu
                · exact h3
                · exact hpos u hu
              · rw [List.chain'_cons']
                exact ⟨fun h hh => hhead t rfl h hh, hchain⟩
              · intro q hq h hh
                cases hq
                simp only [List.head?_cons, Option.mem_def, Option.some.injEq] at hh
                exact hh ▸ h5
            · rintro ⟨hpos, hchain, -⟩
              rw [List.chain'_cons'] at hchain
              refine ⟨fun u hu => hpos u (List.mem_cons_of_mem _ hu), hchain.2, ?_⟩
              intro q hq h hh
              cases hq
              exact hchain.1 h hh

/-- The validation succeeds exactly on strictly positive, strictly
increasing tau axes. -/
theorem tau_sanity_checks_ok_iff (taus : List ℚ) :
    tau_sanity_checks taus = .ok () ↔
      (∀ t ∈ taus, 0 < t) ∧ taus.Chain' (· < ·) := by
  rw [tau_sanity_checks, tau_checks_from_ok]
  simp

theorem tau_checks_from_negative (taus : List ℚ) :
    ∀ prev, tau_checks_from prev taus = .error .NegativeTauValue →
      ∃ t ∈ taus, t < 0 := by
  induction taus with
  | nil => intro prev h; simp [tau_checks_from] at h
  | cons t rest ih =>
    intro prev h
    by_cases h1 : t < 0
    · exact ⟨t, by simp, h1⟩
    · by_cases h2 : t = 0
      · simp [tau_checks_from, if_neg h1, if_pos h2] at h
      · cases prev with
        | none =>
          rw [show tau_checks_from none (t :: rest) = tau_checks_from (some t) rest by
            simp [tau_checks_from, if_neg h1, if_neg h2]] at h
          obtain ⟨u, hu, hlt⟩ := ih (some t) h
          exact ⟨u, List.mem_cons_of_mem _ hu, hlt⟩
        | some p =>
          by_cases h4 : t ≤ p
          · simp [tau_checks_from, if_neg h1, if_neg h2, if_pos h4] at h
          · rw [show tau_checks_from (some p) (t :: rest) = tau_checks_from (some t) rest by
              simp [tau_checks_from, if_neg h1, if_neg h2, if_neg h4]] at h
            obtain ⟨u, hu, hlt⟩ := ih (some t) h
            exact ⟨u, List.mem_cons_of_mem _ hu, hlt⟩

theorem tau_checks_from_null (taus : List ℚ) :
    ∀ prev, tau_checks_from prev taus = .error .NullTauValue →
      ∃ t ∈ taus, t = 0 := by
  induction taus with
  | nil => intro prev h; simp [tau_checks_from] at h
  | cons t rest ih =>
    intro prev h
    by_cases h1 : t < 0
    · simp [tau_checks_from, if_pos h1] at h
    · by_cases h2 : t = 0
      · exact ⟨t, by simp, h2⟩
      · cases prev with
        | none =>
          rw [show tau_checks_from none (t :: rest) = tau_checks_from (some t) rest by
            simp [tau_checks_from, if_neg h1, if_neg h2]] at h
          obtain ⟨u, hu, hz⟩ := ih (some t) h
          exact ⟨u, List.mem_cons_of_mem _ hu, hz⟩
        | some p =>
          by_cases h4 : t ≤ p
          · simp [tau_checks_from, if_neg h1, if_neg h2, if_pos h4] at h
          · rw [show tau_checks_from (some p) (t :: rest) = tau_checks_from (some t) rest by
              simp [tau_checks_from, if_neg h1, if_neg h2, if_neg h4]] at h
            obtain ⟨u, hu, hz⟩ := ih (some t) h
            exact ⟨u, List.mem_cons_of_mem _ hu, hz⟩

theorem tau_checks_from_shape (taus : List ℚ) :
    ∀ prev, tau_checks_from prev taus = .error .InvalidTauShape →
      (∃ p, prev = some p ∧ ∃ h ∈ taus.head?, h ≤ p) ∨ ¬ taus.Chain' (· < ·) := by
  induction taus with
  | nil => intro prev h; simp [tau_checks_from] at h
  | cons t rest ih =>
    intro prev h
    by_cases h1 : t < 0
    · simp [tau_checks_from, if_pos h1] at h
    · by_cases h2 : t = 0
      · simp [tau_checks_from, if_neg h1, if_pos h2] at h
      · cases prev with
        | none =>
          rw [show tau_checks_from none (t :: rest) = tau_checks_from (some t) rest by
            simp [tau_checks_from, if_neg h1, if_neg h2]] at h
          rcases ih (some t) h with ⟨p, hp, hd, hhd, hle⟩ | hnc
          · right
            cases hp
            intro hc
            rw [List.chain'_cons'] at hc
            exact absurd (hc.1 hd hhd) (by linarith)
          · right
            intro hc
            rw [List.chain'_cons'] at hc
            exact hnc hc.2
        | some p =>
          by_cases h4 : t ≤ p
          · exact Or.inl ⟨p, rfl, t, rfl, h4⟩
          · rw [show tau_checks_from (some p) (t :: rest) = tau_checks_from (some t) rest by
              simp [tau_checks_from, if_neg h1, if_neg h2, if_neg h4]] at h
            rcases ih (some t) h with ⟨q, hq, hd, hhd, hle⟩ | hnc
            · right
              cases hq
              intro hc
              rw [List.chain'_cons'] at hc
              exact absurd (hc.1 hd hhd) (by linarith)
            · right
              intro hc
              rw [List.chain'_cons'] at hc
              exact hnc hc.2

/-- A failed validation aborts `deviation` with the wrapped tau-axis
error before any estimator runs. -/
theorem deviation_tauError (rsqrt : ℚ → ℚ) (data taus : List ℚ)
    (kind : Deviation) (rate : ℚ) (f ov : Bool) (e : TauError)
    (h : tau_sanity_checks taus = .error e) :
    deviation rsqrt data taus kind rate f ov = some (.error (.TauAxisEror e)) := by
  simp only [deviation, h]

/-- A failed validation aborts `variance` identically. -/
theorem variance_tauError (rsqrt : ℚ → ℚ) (data taus : List ℚ)
    (kind : Deviation) (rate : ℚ) (f ov : Bool) (e : TauError)
    (h : tau_sanity_checks taus = .error e) :
    variance rsqrt data taus kind rate f ov = some (.error (.TauAxisEror e)) := by
  simp only [variance, deviation_tauError rsqrt data taus kind rate f ov e h]

/-- C8: `validate_tau_axis` (source `tau_sanity_checks`) succeeds iff
every element is strictly positive and the sequence strictly increasing;
a `NegativeValue` failure exhibits an element `< 0`, a `ZeroValue`
failure an element `== 0`, a `NonIncreasing` failure a violation of
strict increase; and any validation failure aborts the whole
`deviation`/`variance` call with the wrapped error, before any estimator
result is produced. -/
theorem tau_axis_validation (rsqrt : ℚ → ℚ) (data taus : List ℚ)
    (kind : Deviation) (rate : ℚ) (f ov : Bool) :
    (tau_sanity_checks taus = .ok () ↔
      (∀ t ∈ taus, 0 < t) ∧ taus.Chain' (· < ·)) ∧
    (tau_sanity_checks taus = .error .NegativeTauValue → ∃ t ∈ taus, t < 0) ∧
    (tau_sanity_checks taus = .error .NullTauValue → ∃ t ∈ taus, t = 0) ∧
    (tau_sanity_checks taus = .error .InvalidTauShape → ¬ taus.Chain' (· < ·)) ∧
    (∀ e, tau_sanity_checks taus = .error e →
      deviation rsqrt data taus kind rate f ov = some (.error (.TauAxisEror e)) ∧
      variance rsqrt data taus kind rate f ov = some (.error (.TauAxisEror e))) := by
  refine ⟨tau_sanity_checks_ok_iff taus, tau_checks_from_negative taus none,
    tau_checks_from_null taus none, ?_, ?_⟩
  · intro h
    rcases tau_checks_from_shape taus none h with ⟨p, hp, -⟩ | hnc
    · cases hp
    · exact hnc
  · intro e he
    exact ⟨deviation_tauError rsqrt data taus kind rate f ov e he,
      variance_tauError rsqrt data taus kind rate f ov e he⟩

/-- Witness for C8 at the spec's example axes. -/
theorem tau_axis_validation_witness :
    tau_sanity_checks [1, 2, 4, 8] = .ok () ∧
    (∃ t ∈ ([1, -2, 3] : List ℚ), t < 0) := by
  constructor
  · exact (tau_axis_validation ratSqrt [] [1, 2, 4, 8] .Allan 1 false false).1.mpr
      (by norm_num [List.chain'_cons])
  · exact (tau_axis_validation ratSqrt [] [1, -2, 3] .Allan 1 false false).2.1
      (by norm_num [tau_sanity_checks, tau_checks_from])

/-- C1: on a feasible input (`1 ≤ n = floor(tau) ≤ (N-1)/2`, sampling
rate 1, stride `1` if overlapping else `n`) the Allan estimator returns
the deviation `rsqrt(S/(2k))/tau` and the error bar
`deviation / rsqrt(k)`, where `S` is the strided sum of squared second
differences and `k` the number of accumulated terms; and whenever the
square-root routine is exact at `S/(2k)`, the returned deviation is
nonnegative with square `S/(2k)/tau²` (the variance estimate). -/
theorem allan_estimator_formula (rsqrt : ℚ → ℚ) (data : List ℚ) (tau : ℚ) (ov : Bool)
    (h1 : 1 ≤ ratToUsize tau) (h2 : ratToUsize tau ≤ (data.length - 1) / 2) :
    calc_adev rsqrt data tau 1 ov =
      some (.ok
        (rsqrt (adevSum data (ratToUsize tau) (strideOf ov (ratToUsize tau)) /
            (2 * (adevCount data.length (ratToUsize tau) (strideOf ov (ratToUsize tau)) : ℚ))) / tau,
         rsqrt (adevSum data (ratToUsize tau) (strideOf ov (ratToUsize tau)) /
            (2 * (adevCount data.length (ratToUsize tau) (strideOf ov (ratToUsize tau)) : ℚ))) / tau /
           rsqrt ((adevCount data.length (ratToUsize tau) (strideOf ov (ratToUsize tau)) : ℚ)))) ∧
    (0 ≤ rsqrt (adevSum data (ratToUsize tau) (strideOf ov (ratToUsize tau)) /
          (2 * (adevCount data.length (ratToUsize tau) (strideOf ov (ratToUsize tau)) : ℚ))) →
     rsqrt (adevSum data (ratToUsize tau) (strideOf ov (ratToUsize tau)) /
          (2 * (adevCount data.length (ratToUsize tau) (strideOf ov (ratToUsize tau)) : ℚ))) ^ 2
        = adevSum data (ratToUsize tau) (strideOf ov (ratToUsize tau)) /
          (2 * (adevCount data.length (ratToUsize tau) (strideOf ov (ratToUsize tau)) : ℚ)) →
     ∀ d e, calc_adev rsqrt data tau 1 ov = some (.ok (d, e)) →
       0 ≤ d ∧
       d ^ 2 = adevSum data (ratToUsize tau) (strideOf ov (ratToUsize tau)) /
          (2 * (adevCount data.length (ratToUsize tau) (strideOf ov (ratToUsize tau)) : ℚ)) / tau ^ 2 ∧
       e = d / rsqrt ((adevCount data.length (ratToUsize tau) (strideOf ov (ratToUsize tau)) : ℚ))) := by
  have heq := calc_adev_eq rsqrt data tau 1 ov h1 h2
  rw [show adevSum data (ratToUsize tau) (strideOf ov (ratToUsize tau)) / 2 /
      (adevCount data.length (ratToUsize tau) (strideOf ov (ratToUsize tau)) : ℚ)
      = adevSum data (ratToUsize tau) (strideOf ov (ratToUsize tau)) /
        (2 * (adevCount data.length (ratToUsize tau) (strideOf ov (ratToUsize tau)) : ℚ))
    from div_div _ _ _] at heq
  rw [show rsqrt (adevSum data (ratToUsize tau) (strideOf ov (ratToUsize tau)) /
        (2 * (adevCount data.length (ratToUsize tau) (strideOf ov (ratToUsize tau)) : ℚ))) / tau / 1
      = rsqrt (adevSum data (ratToUsize tau) (strideOf ov (ratToUsize tau)) /
        (2 * (adevCount data.length (ratToUsize tau) (strideOf ov (ratToUsize tau)) : ℚ))) / tau
    from div_one _] at heq
  have hfl : (1 : ℤ) ≤ Int.floor tau := by
    unfold ratToUsize at h1; omega
  have htau : (1 : ℚ) ≤ tau := by exact_mod_cast Int.le_floor.mp hfl
  refine ⟨heq, ?_⟩
  intro h0 hsq d e hde
  rw [heq] at hde
  simp only [Option.some.injEq, Except.ok.injEq, Prod.mk.injEq] at hde
  obtain ⟨hd, he⟩ := hde
  subst hd
  subst he
  refine ⟨div_nonneg h0 (by linarith), ?_, rfl⟩
  rw [div_pow, hsq]

/-- Witness for C1: constant data of length 7, tau 2, non-overlapping. -/
theorem allan_estimator_formula_witness :
    calc_adev ratSqrt [1, 1, 1, 1, 1, 1, 1] 2 1 false = some (.ok (0, 0)) := by
  have hu : ratToUsize (2 : ℚ) = 2 := by
    have h2 : Int.floor (2 : ℚ) = 2 := by norm_num
    rw [ratToUsize, h2]; rfl
  have h := (allan_estimator_formula ratSqrt [1, 1, 1, 1, 1, 1, 1] 2 false
    (by rw [hu]; norm_num) (by rw [hu]; norm_num)).1
  rw [hu] at h
  rw [h]
  norm_num [adevSum, adevCount, ceilDiv, secondDiff, strideOf,
    Finset.sum_range_succ, Finset.sum_range_zero, ratSqrt]

/-- C2 (amended): for data of length `N ≥ 1` and tau with integer sample
count `n = floor(tau) ≥ 1`: both the Allan estimator (either stride
mode) and the Modified estimator fail with `NotEnoughSamplesError`
exactly when `n > (N-1)/2`; the Allan estimator succeeds otherwise; the
Modified estimator succeeds otherwise only when additionally `3n ≤ N`,
and aborts (its running-loop bound `N - 3n` underflows, a panic) when
`n ≤ (N-1)/2` but `N < 3n`. -/
theorem feasibility_boundary (rsqrt : ℚ → ℚ) (data : List ℚ) (tau rate : ℚ)
    (ov : Bool) (hN : 1 ≤ data.length) (hn : 1 ≤ ratToUsize tau) :
    (calc_adev rsqrt data tau rate ov = some (.error .NotEnoughSamplesError) ↔
      (data.length - 1) / 2 < ratToUsize tau) ∧
    (calc_mdev rsqrt data tau rate = some (.error .NotEnoughSamplesError) ↔
      (data.length - 1) / 2 < ratToUsize tau) ∧
    (ratToUsize tau ≤ (data.length - 1) / 2 →
      (∃ p, calc_adev rsqrt data tau rate ov = some (.ok p)) ∧
      (3 * ratToUsize tau ≤ data.length →
        ∃ p, calc_mdev rsqrt data tau rate = some (.ok p)) ∧
      (data.length < 3 * ratToUsize tau →
        calc_mdev rsqrt data tau rate = none)) := by
  refine ⟨⟨?_, calc_adev_notEnough rsqrt data tau rate ov hN⟩,
    ⟨?_, calc_mdev_notEnough rsqrt data tau rate hN⟩, ?_⟩
  · intro h
    by_contra hc
    push_neg at hc
    rw [calc_adev_eq rsqrt data tau rate ov hn hc] at h
    exact absurd h (by simp)
  · intro h
    by_contra hc
    push_neg at hc
    rcases le_or_lt (3 * ratToUsize tau) data.length with h3 | h3
    · rw [calc_mdev_eq rsqrt data tau rate hN hc h3] at h
      exact absurd h (by simp)
    · rw [calc_mdev_panics rsqrt data tau rate hN hc h3] at h
      exact absurd h (by simp)
  · intro hf
    exact ⟨⟨_, calc_adev_eq rsqrt data tau rate ov hn hf⟩,
      fun h3 => ⟨_, calc_mdev_eq rsqrt data tau rate hN hf h3⟩,
      fun h3 => calc_mdev_panics rsqrt data tau rate hN hf h3⟩

/-- Witness for C2: with N = 10, n = 5 fails with NotEnoughSamples for
both estimators; n = 4 succeeds for Allan but aborts for Modified
(10 < 12); n = 3 succeeds for Modified. -/
theorem feasibility_boundary_witness :
    calc_adev ratSqrt [0, 0, 0, 0, 0, 0, 0, 0, 0, 0] 5 1 true
      = some (.error .NotEnoughSamplesError) ∧
    calc_mdev ratSqrt [0, 0, 0, 0, 0, 0, 0, 0, 0, 0] 5 1
      = some (.error .NotEnoughSamplesError) ∧
    (∃ p, calc_adev ratSqrt [0, 0, 0, 0, 0, 0, 0, 0, 0, 0] 4 1 true = some (.ok p)) ∧
    (∃ p, calc_mdev ratSqrt [0, 0, 0, 0, 0, 0, 0, 0, 0, 0] 3 1 = some (.ok p)) ∧
    calc_mdev ratSqrt [0, 0, 0, 0, 0, 0, 0, 0, 0, 0] 4 1 = none := by
  have hu5 : ratToUsize (5 : ℚ) = 5 := by
    have h5 : Int.floor (5 : ℚ) = 5 := by norm_num
    rw [ratToUsize, h5]; rfl
  have hu4 : ratToUsize (4 : ℚ) = 4 := by
    have h4 : Int.floor (4 : ℚ) = 4 := by norm_num
    rw [ratToUsize, h4]; rfl
  have hu3 : ratToUsize (3 : ℚ) = 3 := by
    have h3 : Int.floor (3 : ℚ) = 3 := by norm_num
    rw [ratToUsize, h3]; rfl
  have h5 := feasibility_boundary ratSqrt [0, 0, 0, 0, 0, 0, 0, 0, 0, 0] 5 1 true
    (by norm_num) (by rw [hu5]; norm_num)
  have h4 := feasibility_boundary ratSqrt [0, 0, 0, 0, 0, 0, 0, 0, 0, 0] 4 1 true
    (by norm_num) (by rw [hu4]; norm_num)
  have h3 := feasibility_boundary ratSqrt [0, 0, 0, 0, 0, 0, 0, 0, 0, 0] 3 1 true
    (by norm_num) (by rw [hu3]; norm_num)
  refine ⟨h5.1.mpr (by rw [hu5]; norm_num), h5.2.1.mpr (by rw [hu5]; norm_num),
    ?_, ?_, ?_⟩
  · exact (h4.2.2 (by rw [hu4]; norm_num)).1
  · exact (h3.2.2 (by rw [hu3]; norm_num)).2.1 (by rw [hu3]; norm_num)
  · exact (h4.2.2 (by rw [hu4]; norm_num)).2.2 (by rw [hu4]; norm_num)

/-- Counterexample for C2 as stated: with N = 10 and tau = 1/2 the sample
count n = 0 satisfies n ≤ (N-1)/2, yet the non-overlapping Allan
estimator neither succeeds nor reports NotEnoughSamples — its loop never
terminates (modelled by `none`); on empty data (N = 0) the feasibility
subtraction underflows (panic, `none`); and with N = 10, n = 4 — the
feasible boundary the claim says succeeds — the Modified estimator's
running-loop bound 10 - 12 underflows and the call aborts. -/
theorem feasibility_boundary_counterexample :
    ratToUsize ((1 : ℚ) / 2) = 0 ∧
    calc_adev ratSqrt [0, 0, 0, 0, 0, 0, 0, 0, 0, 0] (1 / 2) 1 false = none ∧
    calc_adev ratSqrt [] 1 1 true = none ∧
    ratToUsize (4 : ℚ) ≤ (10 - 1) / 2 ∧
    calc_mdev ratSqrt [0, 0, 0, 0, 0, 0, 0, 0, 0, 0] 4 1 = none := by
  have hu : ratToUsize ((1 : ℚ) / 2) = 0 := by
    have h0 : Int.floor ((1 : ℚ) / 2) = 0 := by norm_num [Int.floor_eq_zero_iff]
    rw [ratToUsize, h0]; rfl
  have hu4 : ratToUsize (4 : ℚ) = 4 := by
    have h4 : Int.floor (4 : ℚ) = 4 := by norm_num
    rw [ratToUsize, h4]; rfl
  have hdiv := adevLoop_diverges ([0, 0, 0, 0, 0, 0, 0, 0, 0, 0] : List ℚ) 0
    11 0 0 0 (by norm_num)
  refine ⟨hu, ?_, ?_, by rw [hu4], ?_⟩
  · simp only [calc_adev, hu, strideOf, checkedSub]
    norm_num [hdiv]
  · simp [calc_adev, checkedSub]
  · have h := calc_mdev_panics ratSqrt [0, 0, 0, 0, 0, 0, 0, 0, 0, 0] 4 1
      (by norm_num) (by rw [hu4]; norm_num) (by rw [hu4]; norm_num)
    exact h

/-- C9: for data of length ≥ 1 and 0 < tau < 1 (which passes tau-axis
validation), non-overlapping Allan gets n = floor(tau) = 0 and
stride = 0; the feasibility check passes, the accumulation loop advances
by 0 and never finishes for any fuel, and both `calc_adev` and
`deviation` fail to return; for floor(tau) ≥ 1 the loop terminates. -/
theorem adev_termination (rsqrt : ℚ → ℚ) (data : List ℚ) (tau rate : ℚ)
    (hN : 1 ≤ data.length) :
    (0 < tau → tau < 1 →
      ratToUsize tau = 0 ∧
      strideOf false (ratToUsize tau) = 0 ∧
      tau_sanity_checks [tau] = .ok () ∧
      ¬ ((data.length - 1) / 2 < ratToUsize tau) ∧
      (∀ fuel n sum, adevLoop data 0 0 fuel 0 n sum = none) ∧
      calc_adev rsqrt data tau rate false = none ∧
      deviation rsqrt data [tau] .Allan rate false false = none) ∧
    (1 ≤ ratToUsize tau →
      ∃ r, adevLoop data (ratToUsize tau) (strideOf false (ratToUsize tau))
        (data.length + 1) 0 0 0 = some r) := by
  constructor
  · intro h0 h1
    have hu : ratToUsize tau = 0 := by
      rw [ratToUsize, Int.floor_eq_zero_iff.mpr ⟨le_of_lt h0, h1⟩]
      rfl
    have hch : tau_sanity_checks [tau] = .ok () := by
      rw [tau_sanity_checks, tau_checks_from,
        if_neg (show ¬ tau < 0 by linarith), if_neg (ne_of_gt h0)]
      rfl
    have hloop : ∀ fuel n sum, adevLoop data 0 0 fuel 0 n sum = none := by
      intro fuel n sum
      exact adevLoop_diverges data 0 fuel 0 n sum (by omega)
    have hcs : checkedSub data.length 1 = some (data.length - 1) := by
      unfold checkedSub; rw [if_pos hN]
    have hcalc : calc_adev rsqrt data tau rate false = none := by
      simp only [calc_adev, hu, hcs, strideOf, Bool.false_eq_true, if_false,
        gt_iff_lt, if_neg (show ¬ (data.length - 1) / 2 < 0 by omega), hloop]
    refine ⟨hu, by rw [hu]; rfl, hch, by rw [hu]; omega, hloop, hcalc, ?_⟩
    simp only [deviation, hch, preprocess, Bool.false_eq_true, if_false,
      devLoop, runCalc, hcalc]
  · intro h1
    refine ⟨_, adevLoop_eq data (ratToUsize tau) (strideOf false (ratToUsize tau))
      (by simpa [strideOf] using h1) (data.length + 1) 0 0 0 (by omega)⟩

/-- Witness for C9: tau = 1/2 on one sample never returns; tau = 2
terminates. -/
theorem adev_termination_witness :
    calc_adev ratSqrt [0] (1 / 2) 1 false = none ∧
    (∃ r, adevLoop [0] (ratToUsize (2 : ℚ)) (strideOf false (ratToUsize (2 : ℚ)))
      2 0 0 0 = some r) := by
  have hu2 : ratToUsize (2 : ℚ) = 2 := by
    have h2 : Int.floor (2 : ℚ) = 2 := by norm_num
    rw [ratToUsize, h2]; rfl
  constructor
  · exact ((adev_termination ratSqrt [0] (1 / 2) 1 (by norm_num)).1
      (by norm_num) (by norm_num)).2.2.2.2.2.1
  · exact (adev_termination ratSqrt [0] 2 1 (by norm_num)).2 (by rw [hu2]; norm_num)

/-- Recurrence satisfied by the cumulative sum: each output element after
the first is the previous output plus the input, scaled by `dt`. -/
theorem cumsum_loop_getD (dt : ℚ) :
    ∀ (rest : List ℚ) (x : ℚ) (i : ℕ), i < rest.length →
      (x :: cumsum_loop dt x rest).getD (i + 1) 0
        = ((x :: cumsum_loop dt x rest).getD i 0 + rest.getD i 0) * dt := by
  intro rest
  induction rest with
  | nil => intro x i h; simp at h
  | cons d rest' ih =>
    intro x i h
    cases i with
    | zero => simp [cumsum_loop]
    | succ j =>
      have hj : j < rest'.length := by simpa using h
      have hih := ih ((x + d) * dt) j hj
      simpa [cumsum_loop, List.getD_cons_succ] using hih

/-- C6 (amended): the fractional preprocessor integrates by
`output[0] = input[0]` — the first element is NOT scaled by `dt` — and
`output[i] = (output[i-1] + input[i]) * dt` with `dt = 1/sample_rate`;
at sampling rate 1 integrating `[1,1,1,1]` yields `[1,2,3,4]`, and the
first difference of `[1,2,3,4]` yields `[1,1,1]`. -/
theorem fractional_preprocessor (x : ℚ) (rest : List ℚ) (rate : ℚ) :
    (∃ out, fractionnal_integral (x :: rest) rate = some out ∧
      out.length = rest.length + 1 ∧
      out.getD 0 0 = x ∧
      ∀ i, i < rest.length →
        out.getD (i + 1) 0 = (out.getD i 0 + rest.getD i 0) * (1 / rate)) ∧
    fractionnal_integral [1, 1, 1, 1] 1 = some [1, 2, 3, 4] ∧
    diff [1, 2, 3, 4] none = some [1, 1, 1] := by
  refine ⟨⟨x :: cumsum_loop (1 / rate) x rest, rfl, ?_, rfl, ?_⟩, ?_, ?_⟩
  · simp [cumsum_loop_length]
  · intro i hi
    exact cumsum_loop_getD (1 / rate) rest x i hi
  · norm_num [fractionnal_integral, cumsum, cumsum_loop]
  · norm_num [diff, diff_loop]

/-- Witness for C6 at the spec's round-trip example. -/
theorem fractional_preprocessor_witness :
    fractionnal_integral [1, 1, 1, 1] 1 = some [1, 2, 3, 4] :=
  (fractional_preprocessor 1 [1, 1, 1] 1).2.1

/-- Counterexample for C6 as stated: at sampling rate 2 (dt = 1/2) the
first output element is `input[0] = 1`, not the claimed
`input[0] * dt = 1/2`. -/
theorem fractional_preprocessor_counterexample :
    fractionnal_integral [1] 2 = some [1] ∧ ((1 : ℚ) ≠ 1 * (1 / 2)) := by
  constructor
  · norm_num [fractionnal_integral, cumsum, cumsum_loop]
  · norm_num

/-- C3 (amended): for nonempty data and a valid tau axis all of whose
entries have integer sample count ≥ 1 and — when the kind is Modified or
Time — whose feasible entries also satisfy `3·floor(tau) ≤ N` (otherwise
the estimator panics in its running-loop bound), `deviation` evaluates
taus in axis order, appends one (value, error) pair per successful tau,
stops at the first `NotEnoughSamples` failure without attempting later
taus, and still returns Ok with two equal-length sequences aligned to
the feasible prefix of the axis (possibly empty); per-tau infeasibility
is never surfaced as an error to the caller. -/
theorem deviation_truncation (rsqrt : ℚ → ℚ) (data taus : List ℚ)
    (kind : Deviation) (rate : ℚ) (fract ov : Bool)
    (hN : 1 ≤ data.length)
    (hvalid : tau_sanity_checks taus = .ok ())
    (htau : ∀ t ∈ taus, 1 ≤ ratToUsize t)
    (hsafe : ∀ t ∈ taus, ratToUsize t ≤ (data.length - 1) / 2 →
      kind = .Allan ∨ 3 * ratToUsize t ≤ data.length) :
    ∃ pdata devs errs,
      preprocess data fract = some pdata ∧
      pdata.length = data.length ∧
      deviation rsqrt data taus kind rate fract ov = some (.ok (devs, errs)) ∧
      devs.length = errs.length ∧
      devs.length = (taus.takeWhile fun t =>
        decide (ratToUsize t ≤ (data.length - 1) / 2)).length ∧
      ∀ i, i < devs.length →
        runCalc rsqrt kind pdata (taus.getD i 0) rate ov
          = some (.ok (devs.getD i 0, errs.getD i 0)) := by
  obtain ⟨pdata, hp, hlen⟩ := preprocess_length data fract hN
  obtain ⟨devs, errs, hdl, hle, htw, hidx⟩ := devLoop_eq rsqrt kind pdata rate ov
    (by omega) taus htau
    (by
      intro t ht hf
      rw [hlen] at hf ⊢
      exact hsafe t ht hf)
  rw [hlen] at htw
  refine ⟨pdata, devs, errs, hp, hlen, ?_, hle, htw, hidx⟩
  simp only [deviation, hvalid, hp, hdl]

/-- Witness for C3: five samples, axis [1, 2, 9]: the feasible prefix is
[1, 2] and the infeasible tau 9 truncates the output at length 2 with no
error. -/
theorem deviation_truncation_witness :
    ∃ devs errs,
      deviation ratSqrt [0, 0, 0, 0, 0] [1, 2, 9] .Allan 1 false true
        = some (.ok (devs, errs)) ∧
      devs.length = 2 ∧ errs.length = 2 := by
  have hu1 : ratToUsize (1 : ℚ) = 1 := by
    have h : Int.floor (1 : ℚ) = 1 := by norm_num
    rw [ratToUsize, h]; rfl
  have hu2 : ratToUsize (2 : ℚ) = 2 := by
    have h : Int.floor (2 : ℚ) = 2 := by norm_num
    rw [ratToUsize, h]; rfl
  have hu9 : ratToUsize (9 : ℚ) = 9 := by
    have h : Int.floor (9 : ℚ) = 9 := by norm_num
    rw [ratToUsize, h]; rfl
  obtain ⟨pdata, devs, errs, -, -, hdev, hle, htw, -⟩ :=
    deviation_truncation ratSqrt [0, 0, 0, 0, 0] [1, 2, 9] .Allan 1 false true
      (by norm_num)
      (by norm_num [tau_sanity_checks, tau_checks_from])
      (by
        intro t ht
        simp only [List.mem_cons, List.not_mem_nil, or_false] at ht
        rcases ht with rfl | rfl | rfl
        · rw [hu1]
        · rw [hu2]; norm_num
        · rw [hu9]; norm_num)
      (fun t _ _ => Or.inl rfl)
  exact ⟨devs, errs, hdev, by rw [htw]; norm_num [List.takeWhile, hu1, hu2, hu9], by
    rw [← hle, htw]; norm_num [List.takeWhile, hu1, hu2, hu9]⟩

/-- Counterexample for C3 as stated: the tau axis [1/2] passes
validation, yet the non-overlapping Allan deviation call on [0,0,0]
never returns Ok — the estimator loop spins at stride 0, so no
truncated prefix is ever produced; and with the Modified kind, ten
samples and the valid axis [4] (every entry with floor ≥ 1, feasible
since 4 ≤ (10-1)/2), the call aborts inside the estimator's running-loop
bound 10 - 12 instead of returning Ok. -/
theorem deviation_truncation_counterexample :
    tau_sanity_checks [(1 : ℚ) / 2] = .ok () ∧
    deviation ratSqrt [0, 0, 0] [1 / 2] .Allan 1 false false = none ∧
    tau_sanity_checks [(4 : ℚ)] = .ok () ∧
    deviation ratSqrt [0, 0, 0, 0, 0, 0, 0, 0, 0, 0] [4] .Modified 1 false false
      = none := by
  have hu : ratToUsize ((1 : ℚ) / 2) = 0 := by
    have h0 : Int.floor ((1 : ℚ) / 2) = 0 := by norm_num [Int.floor_eq_zero_iff]
    rw [ratToUsize, h0]; rfl
  have hu4 : ratToUsize (4 : ℚ) = 4 := by
    have h4 : Int.floor (4 : ℚ) = 4 := by norm_num
    rw [ratToUsize, h4]; rfl
  have hch : tau_sanity_checks [(1 : ℚ) / 2] = .ok () := by
    norm_num [tau_sanity_checks, tau_checks_from]
  have hch4 : tau_sanity_checks [(4 : ℚ)] = .ok () := by
    norm_num [tau_sanity_checks, tau_checks_from]
  have hdiv := adevLoop_diverges ([0, 0, 0] : List ℚ) 0 4 0 0 0 (by norm_num)
  have hcalc : calc_adev ratSqrt [0, 0, 0] (1 / 2) 1 false = none := by
    simp only [calc_adev, hu, strideOf, checkedSub]
    norm_num [hdiv]
  have hmp : calc_mdev ratSqrt [0, 0, 0, 0, 0, 0, 0, 0, 0, 0] 4 1 = none :=
    calc_mdev_panics ratSqrt [0, 0, 0, 0, 0, 0, 0, 0, 0, 0] 4 1
      (by norm_num) (by rw [hu4]; norm_num) (by rw [hu4]; norm_num)
  refine ⟨hch, ?_, hch4, ?_⟩
  · simp only [deviation, hch, preprocess, Bool.false_eq_true, if_false,
      devLoop, runCalc, hcalc]
  · simp only [deviation, hch4, preprocess, Bool.false_eq_true, if_false,
      devLoop, runCalc, hmp]

/-- C10: on empty data the feasibility check's `data.len() - 1`
underflows (a Rust debug-mode panic) and, in the fractional path, the
cumulative sum indexes element 0 of an empty vector; for any nonempty
valid tau axis the `deviation` and `variance` calls therefore abort
instead of returning a NotEnoughSamples-driven truncation or an empty
prefix. -/
theorem empty_data_aborts (rsqrt : ℚ → ℚ) (taus : List ℚ) (kind : Deviation)
    (rate : ℚ) (fract ov : Bool)
    (hne : taus ≠ [])
    (hvalid : tau_sanity_checks taus = .ok ()) :
    checkedSub ([] : List ℚ).length 1 = none ∧
    cumsum ([] : List ℚ) (some 1) = none ∧
    deviation rsqrt [] taus kind rate fract ov = none ∧
    variance rsqrt [] taus kind rate fract ov = none := by
  have hdev : deviation rsqrt [] taus kind rate fract ov = none := by
    cases fract
    · obtain ⟨t, rest, rfl⟩ : ∃ t rest, taus = t :: rest := by
        cases taus with
        | nil => exact absurd rfl hne
        | cons a b => exact ⟨a, b, rfl⟩
      have hrc : runCalc rsqrt kind [] t rate ov = none := by
        cases kind <;>
          simp [runCalc, calc_adev, calc_mdev, calc_tdev, checkedSub]
      simp only [deviation, hvalid, preprocess, Bool.false_eq_true, if_false,
        devLoop, hrc]
    · simp only [deviation, hvalid, preprocess, if_true, fractionnal_integral,
        cumsum]
  refine ⟨rfl, rfl, hdev, ?_⟩
  simp only [variance, hdev]

/-- Witness for C10 at the axis [1]. -/
theorem empty_data_aborts_witness :
    deviation ratSqrt [] [1] .Allan 1 true true = none ∧
    variance ratSqrt [] [1] .Allan 1 true true = none := by
  have h := empty_data_aborts ratSqrt [1] .Allan 1 true true
    (by simp) (by norm_num [tau_sanity_checks, tau_checks_from])
  exact ⟨h.2.2.1, h.2.2.2⟩

/-- C5 (amended): `variance` succeeds exactly when `deviation` succeeds,
with the identical error-bar sequence and a value sequence of the same
length in which each value is the square of the corresponding returned
deviation.  This is implemented by squaring the deviations returned by
the deviation engine — a sqrt-then-square round trip; no
deviation/variance flag is threaded through to the estimators. -/
theorem variance_of_deviation (rsqrt : ℚ → ℚ) (data taus : List ℚ)
    (kind : Deviation) (rate : ℚ) (fract ov : Bool) :
    (∀ devs errs,
      deviation rsqrt data taus kind rate fract ov = some (.ok (devs, errs)) →
      variance rsqrt data taus kind rate fract ov
        = some (.ok (devs.map fun v => v * v, errs)) ∧
      (devs.map fun v => v * v).length = devs.length) ∧
    (∀ e, deviation rsqrt data taus kind rate fract ov = some (.error e) →
      variance rsqrt data taus kind rate fract ov = some (.error e)) ∧
    (deviation rsqrt data taus kind rate fract ov = none →
      variance rsqrt data taus kind rate fract ov = none) := by
  refine ⟨?_, ?_, ?_⟩
  · intro devs errs h
    exact ⟨by simp only [variance, h], by simp⟩
  · intro e h
    simp only [variance, h]
  · intro h
    simp only [variance, h]

/-- Witness for C5 at a concrete succeeding input. -/
theorem variance_of_deviation_witness :
    variance ratSqrt [0, 0, 2] [1] .Allan 1 false true
      = some (.ok ([1], [1])) := by
  have hu1 : ratToUsize (1 : ℚ) = 1 := by
    have h : Int.floor (1 : ℚ) = 1 := by norm_num
    rw [ratToUsize, h]; rfl
  have hca : calc_adev ratSqrt [0, 0, 2] 1 1 true = some (.ok (1, 1)) := by
    have h := calc_adev_eq ratSqrt [0, 0, 2] 1 1 true
      (by rw [hu1]) (by rw [hu1]; norm_num)
    rw [hu1] at h
    rw [h]
    norm_num [adevSum, adevCount, ceilDiv, secondDiff, strideOf,
      Finset.sum_range_succ, Finset.sum_range_zero, ratSqrt]
  have hdev : deviation ratSqrt [0, 0, 2] [1] .Allan 1 false true
      = some (.ok ([1], [1])) := by
    have hch : tau_sanity_checks [1] = .ok () := by
      norm_num [tau_sanity_checks, tau_checks_from]
    simp only [deviation, hch, preprocess, Bool.false_eq_true, if_false,
      devLoop, runCalc, hca]
  have h := (variance_of_deviation ratSqrt [0, 0, 2] [1] .Allan 1 false true).1
    [1] [1] hdev
  rw [h.1]
  norm_num

/-- Counterexample for C5 as stated: on `[0,0,2]` with tau axis `[1]`
(overlapping Allan) the direct flag-cleared variance would be
`S/(2k)/tau² = 2`, but the engine squares the machine-sqrt deviation and
returns `(rsqrt 2)² = 1` — the sqrt-then-square round trip the claim says
never happens, observable because the square root of 2 is inexact. -/
theorem variance_roundtrip_counterexample :
    variance ratSqrt [0, 0, 2] [1] .Allan 1 false true
      = some (.ok ([1], [1])) ∧
    adevSum [0, 0, 2] 1 1 / (2 * (adevCount 3 1 1 : ℚ)) / 1 ^ 2 = 2 ∧
    ((1 : ℚ) ≠ 2) := by
  have hu1 : ratToUsize (1 : ℚ) = 1 := by
    have h : Int.floor (1 : ℚ) = 1 := by norm_num
    rw [ratToUsize, h]; rfl
  have hca : calc_adev ratSqrt [0, 0, 2] 1 1 true = some (.ok (1, 1)) := by
    have h := calc_adev_eq ratSqrt [0, 0, 2] 1 1 true
      (by rw [hu1]) (by rw [hu1]; norm_num)
    rw [hu1] at h
    rw [h]
    norm_num [adevSum, adevCount, ceilDiv, secondDiff, strideOf,
      Finset.sum_range_succ, Finset.sum_range_zero, ratSqrt]
  have hdev : deviation ratSqrt [0, 0, 2] [1] .Allan 1 false true
      = some (.ok ([1], [1])) := by
    have hch : tau_sanity_checks [1] = .ok () := by
      norm_num [tau_sanity_checks, tau_checks_from]
    simp only [deviation, hch, preprocess, Bool.false_eq_true, if_false,
      devLoop, runCalc, hca]
  refine ⟨?_, ?_, by norm_num⟩
  · simp only [variance, hdev]
    norm_num
  · norm_num [adevSum, adevCount, ceilDiv, secondDiff,
      Finset.sum_range_succ, Finset.sum_range_zero]

/-- Structure of the combination loop of `three_cornered_hat`: when the
first variance sequence is no longer than the other two, it succeeds and
computes the three pairwise combinations index by index. -/
theorem tch_combine_eq (rsqrt : ℚ → ℚ) :
    ∀ va vb vc : List ℚ, va.length ≤ vb.length → va.length ≤ vc.length →
      ∃ A B C, tch_combine rsqrt va vb vc = some (A, B, C) ∧
        A.length = va.length ∧ B.length = va.length ∧ C.length = va.length ∧
        ∀ i, i < va.length →
          A.getD i 0 = rsqrt (0.5 * (va.getD i 0 - vb.getD i 0 + vc.getD i 0)) ∧
          B.getD i 0 = rsqrt (0.5 * (vb.getD i 0 - vc.getD i 0 + va.getD i 0)) ∧
          C.getD i 0 = rsqrt (0.5 * (vc.getD i 0 - va.getD i 0 + vb.getD i 0)) := by
  intro va
  induction va with
  | nil =>
    intro vb vc _ _
    exact ⟨[], [], [], rfl, rfl, rfl, rfl, fun i hi => absurd hi (by simp)⟩
  | cons a va' ih =>
    intro vb vc hb hc
    cases vb with
    | nil => simp at hb
    | cons b vb' =>
      cases vc with
      | nil => simp at hc
      | cons c vc' =>
        obtain ⟨A, B, C, hcomb, hA, hB, hC, hidx⟩ :=
          ih vb' vc' (by simpa using hb) (by simpa using hc)
        refine ⟨rsqrt (0.5 * (a - b + c)) :: A, rsqrt (0.5 * (b - c + a)) :: B,
          rsqrt (0.5 * (c - a + b)) :: C,
          ?_, by simp [hA], by simp [hB], by simp [hC], ?_⟩
        · simp only [tch_combine, hcomb]
        · intro i hi
          cases i with
          | zero => simp
          | succ j =>
            simpa using hidx j (by simpa using hi)

/-- C7: given three pairwise variance runs that succeed with aligned
lengths (the first no longer than the other two — mismatches are a
caller contract violation that panics), `three_cornered_hat` returns per
index `dev_a[i] = rsqrt(0.5·(var_ab[i] − var_bc[i] + var_ca[i]))` and
cyclically for the other two clocks, pairing each clock's deviation
sequence with the unmodified error-bar sequence of its corresponding
pairwise measurement. -/
theorem three_cornered_hat_formula (rsqrt : ℚ → ℚ)
    (data_ab data_bc data_ca taus : List ℚ) (rate : ℚ) (fract ov : Bool)
    (kind : Deviation) (vab eab vbc ebc vca eca : List ℚ)
    (hab : variance rsqrt data_ab taus kind rate fract ov = some (.ok (vab, eab)))
    (hbc : variance rsqrt data_bc taus kind rate fract ov = some (.ok (vbc, ebc)))
    (hca : variance rsqrt data_ca taus kind rate fract ov = some (.ok (vca, eca)))
    (hlb : vab.length ≤ vbc.length) (hlc : vab.length ≤ vca.length) :
    ∃ A B C,
      three_cornered_hat rsqrt data_ab data_bc data_ca taus rate fract ov kind
        = some (.ok ((A, eab), (B, ebc), (C, eca))) ∧
      A.length = vab.length ∧ B.length = vab.length ∧ C.length = vab.length ∧
      ∀ i, i < vab.length →
        A.getD i 0 = rsqrt (0.5 * (vab.getD i 0 - vbc.getD i 0 + vca.getD i 0)) ∧
        B.getD i 0 = rsqrt (0.5 * (vbc.getD i 0 - vca.getD i 0 + vab.getD i 0)) ∧
        C.getD i 0 = rsqrt (0.5 * (vca.getD i 0 - vab.getD i 0 + vbc.getD i 0)) := by
  obtain ⟨A, B, C, hcomb, hA, hB, hC, hidx⟩ := tch_combine_eq rsqrt vab vbc vca hlb hlc
  refine ⟨A, B, C, ?_, hA, hB, hC, hidx⟩
  simp only [three_cornered_hat, hab, hbc, hca, hcomb]

/-- Witness for C7 at three zero sequences with tau axis [1]. -/
theorem three_cornered_hat_formula_witness :
    ∃ A B C,
      three_cornered_hat ratSqrt [0, 0, 0] [0, 0, 0] [0, 0, 0] [1] 1 false true .Allan
        = some (.ok ((A, [0]), (B, [0]), (C, [0]))) ∧
      A.length = 1 := by
  have hu1 : ratToUsize (1 : ℚ) = 1 := by
    have h : Int.floor (1 : ℚ) = 1 := by norm_num
    rw [ratToUsize, h]; rfl
  have hca : calc_adev ratSqrt [0, 0, 0] 1 1 true = some (.ok (0, 0)) := by
    have h := calc_adev_eq ratSqrt [0, 0, 0] 1 1 true
      (by rw [hu1]) (by rw [hu1]; norm_num)
    rw [hu1] at h
    rw [h]
    norm_num [adevSum, adevCount, ceilDiv, secondDiff, strideOf,
      Finset.sum_range_succ, Finset.sum_range_zero, ratSqrt]
  have hvar : variance ratSqrt [0, 0, 0] [1] .Allan 1 false true
      = some (.ok ([0], [0])) := by
    have hch : tau_sanity_checks [1] = .ok () := by
      norm_num [tau_sanity_checks, tau_checks_from]
    have hdev : deviation ratSqrt [0, 0, 0] [1] .Allan 1 false true
        = some (.ok ([0], [0])) := by
      simp only [deviation, hch, preprocess, Bool.false_eq_true, if_false,
        devLoop, runCalc, hca]
    simp only [variance, hdev]
    norm_num
  obtain ⟨A, B, C, h1, h2, -, -, -⟩ :=
    three_cornered_hat_formula ratSqrt [0, 0, 0] [0, 0, 0] [0, 0, 0] [1] 1
      false true .Allan [0] [0] [0] [0] [0] [0] hvar hvar hvar
      (by norm_num) (by norm_num)
  exact ⟨A, B, C, h1, by rw [h2]; rfl⟩

end AllanTools
